import Mathlib

/-!
Shallow embedding of `src/GTE/Mathematics/Matrix.h` (namespace gte): the
fixed-dimension dense matrix type `Matrix<NumRows, NumCols, Real>`, its
storage table with the compile-time layout policy, and the operations the
verified claims refer to.

A matrix is modelled by its physical storage: the flat element sequence that
`&mStorage[0][0]` (i.e. `Table::operator[]`) exposes.  The compile-time
switch GTE_USE_ROW_MAJOR / GTE_USE_COL_MAJOR is modelled by a `Layout`
parameter threaded through every operation that touches the storage through
`Table::operator()(r, c)`.  The element type Real is modelled by a linear
ordered field (the claims are exact-arithmetic statements; ℚ instantiates it
for concrete evaluations).
-/

set_option maxHeartbeats 1000000

namespace gte

/-- The compile-time storage layout policy: GTE_USE_ROW_MAJOR selects
`mStorage[NumRows][NumCols]` indexed as `mStorage[r][c]`, otherwise the
storage is `mStorage[NumCols][NumRows]` indexed as `mStorage[c][r]`. -/
inductive Layout where
  | rowMajor
  | colMajor
deriving DecidableEq

/-- `Matrix<R, C, Real>`: the physical storage `mStorage`, flattened exactly
as the 1D accessor `Table::operator[]` reads it (`&mStorage[0][0]`), with
its size invariant `R*C`. -/
@[ext]
structure Matrix (R C : Nat) (α : Type) where
  flat : List α
  hlen : flat.length = R * C

/-- Physical linear index of the slot that `Table::operator()(r, c)`
designates: `mStorage[r][c]` sits at `r*C + c` under row-major storage,
`mStorage[c][r]` sits at `c*R + r` under column-major storage. -/
def tableIdx (L : Layout) (R C r c : Nat) : Nat :=
  match L with
  | .rowMajor => r * C + c
  | .colMajor => c * R + r

/-- Logical row of physical slot `i` (inverse of `tableIdx` on the grid). -/
def physRow (L : Layout) (R C i : Nat) : Nat :=
  match L with
  | .rowMajor => i / C
  | .colMajor => i % R

/-- Logical column of physical slot `i` (inverse of `tableIdx` on the grid). -/
def physCol (L : Layout) (R C i : Nat) : Nat :=
  match L with
  | .rowMajor => i % C
  | .colMajor => i / R

/-- The layout-transparent 2D accessor `Matrix::operator()(r, c)`, i.e.
`mTable(r, c)`: reads the physical slot `tableIdx L R C r c`.  (Out-of-range
access is undefined behavior in the source; the default 0 here is junk that
no in-range claim depends on.) -/
def entry [Zero α] (L : Layout) {R C : Nat} (M : Matrix R C α) (r c : Nat) : α :=
  M.flat.getD (tableIdx L R C r c) 0

/-- The layout-dependent 1D accessor `Matrix::operator[](i)`. -/
def linearAt [Zero α] {R C : Nat} (M : Matrix R C α) (i : Nat) : α :=
  M.flat.getD i 0

/-- Builds the physical storage of a matrix whose logical entry (r, c) is
`f r c`: physical slot `i` holds the element of logical coordinates
`(physRow i, physCol i)`.  This models any source loop that writes every
slot through `mTable(r, c)`. -/
def build (L : Layout) (R C : Nat) (f : Nat → Nat → α) : Matrix R C α :=
  ⟨(List.range (R * C)).map (fun i => f (physRow L R C i) (physCol L R C i)), by simp⟩

/-- `Matrix::MakeZero` (also the default constructor): every slot is 0. -/
def makeZero [Zero α] (R C : Nat) : Matrix R C α :=
  ⟨List.replicate (R * C) 0, by simp⟩

/-- The `std::array` constructor: `mTable(r, c) = values[i]` with `i` the
row-major counter `r*C + c`, regardless of the active storage scheme.
The source fixes `values.length = R*C` via the `std::array` type. -/
def fromValues [Zero α] (L : Layout) (R C : Nat) (vals : List α) : Matrix R C α :=
  build L R C (fun r c => vals.getD (r * C + c) 0)

/-- The `std::initializer_list` constructor: traverses (r, c) in row-major
order with counter `i = r*C + c`, copying `values[i]` while `i` is below the
list length; once the input is exhausted it zero-fills the rest of the
current row and every remaining row (the `break` cascade in the source). -/
def ofInitList [Zero α] (L : Layout) (R C : Nat) (vals : List α) : Matrix R C α :=
  build L R C (fun r c => if r * C + c < vals.length then vals.getD (r * C + c) 0 else 0)

/-- `Matrix::MakeUnit(r, c)`: `MakeZero()` then, if
`0 <= r && r < NumRows && 0 <= c && c < NumCols`, write 1 into
`mTable(r, c)`.  The indices are int32_t, hence `Int` here. -/
def makeUnit [Zero α] [One α] (L : Layout) (R C : Nat) (r c : Int) : Matrix R C α :=
  if 0 ≤ r ∧ r < R ∧ 0 ≤ c ∧ c < C then
    ⟨(List.replicate (R * C) (0 : α)).set (tableIdx L R C r.toNat c.toNat) 1, by simp⟩
  else
    makeZero R C

/-- The static factory `Matrix::Unit(r, c)`: default-constructs and calls
`MakeUnit(r, c)`. -/
def unit [Zero α] [One α] (L : Layout) (R C : Nat) (r c : Int) : Matrix R C α :=
  makeUnit L R C r c

/-- The basis constructor `Matrix(int32_t r, int32_t c)`: calls
`MakeUnit(r, c)`. -/
def unitCtor [Zero α] [One α] (L : Layout) (R C : Nat) (r c : Int) : Matrix R C α :=
  makeUnit L R C r c

/-- `Matrix::MakeIdentity`: `MakeZero()` then `mTable(i, i) = 1` for
`i < numDiagonal` with `numDiagonal = min NumRows NumCols`. -/
def makeIdentity [Zero α] [One α] (L : Layout) (R C : Nat) : Matrix R C α :=
  build L R C (fun r c => if r = c ∧ r < min R C then 1 else 0)

/-- The static factory `Matrix::Identity()`: default-constructs and calls
`MakeIdentity()`. -/
def identity [Zero α] [One α] (L : Layout) (R C : Nat) : Matrix R C α :=
  makeIdentity L R C

/-- `operator/=(M, scalar)` (and through a copy, `operator/`): when the
scalar is nonzero every slot is multiplied by `invScalar = 1/scalar`
(`M[i] *= invScalar` over the physical sequence); when the scalar is exactly
zero every slot is overwritten with 0. -/
def divScalar [LinearOrderedField α] {R C : Nat} (M : Matrix R C α) (s : α) :
    Matrix R C α :=
  if s ≠ 0 then
    ⟨M.flat.map (fun x => x * (1 / s)), by simp [M.hlen]⟩
  else
    ⟨M.flat.map (fun _ => 0), by simp [M.hlen]⟩

/-- `LInfinityNorm(M)`: `maxAbsElement = M[0]` (note: no fabs on the
initialization), then for `i = 1, ..., R*C - 1`: replace `maxAbsElement`
by `fabs(M[i])` whenever `fabs(M[i]) > maxAbsElement`. -/
def lInfinityNorm [LinearOrderedField α] {R C : Nat} (M : Matrix R C α) : α :=
  M.flat.tail.foldl (fun acc x => if |x| > acc then |x| else acc) (M.flat.headD 0)

/-- `Transpose(M)`: the C×R matrix filled by `result(c, r) = M(r, c)`. -/
def transpose [Zero α] (L : Layout) {R C : Nat} (M : Matrix R C α) : Matrix C R α :=
  build L C R (fun c r => entry L M r c)

/-- `MultiplyAB(A, B)` (also `operator*`): `result(r, c)` starts at 0 and
accumulates `A(r, i) * B(i, c)` for `i = 0, ..., NumCommon - 1` in order. -/
def multiplyAB [LinearOrderedField α] (L : Layout) {R K C : Nat}
    (A : Matrix R K α) (B : Matrix K C α) : Matrix R C α :=
  build L R C (fun r c =>
    (List.range K).foldl (fun acc i => acc + entry L A r i * entry L B i c) 0)

/-- `MultiplyABT(A, B)` (A·Bᵗ): `result(r, c)` accumulates
`A(r, i) * B(c, i)` for `i = 0, ..., NumCommon - 1` in order. -/
def multiplyABT [LinearOrderedField α] (L : Layout) {R K C : Nat}
    (A : Matrix R K α) (B : Matrix C K α) : Matrix R C α :=
  build L R C (fun r c =>
    (List.range K).foldl (fun acc i => acc + entry L A r i * entry L B c i) 0)

/-- `MultiplyATB(A, B)` (Aᵗ·B): `result(r, c)` accumulates
`A(i, r) * B(i, c)` for `i = 0, ..., NumCommon - 1` in order. -/
def multiplyATB [LinearOrderedField α] (L : Layout) {R K C : Nat}
    (A : Matrix K R α) (B : Matrix K C α) : Matrix R C α :=
  build L R C (fun r c =>
    (List.range K).foldl (fun acc i => acc + entry L A i r * entry L B i c) 0)

/-- `HLift(M)`: an (N+1)×(N+1) matrix obtained by `MakeIdentity()` and then
overwriting the top-left N×N block with M; a slot outside that block keeps
the identity's value. -/
def hlift [Zero α] [One α] (L : Layout) {N : Nat} (M : Matrix N N α) :
    Matrix (N + 1) (N + 1) α :=
  build L (N + 1) (N + 1) (fun r c =>
    if r < N ∧ c < N then entry L M r c
    else entry L (makeIdentity L (N + 1) (N + 1) (α := α)) r c)

/-- `HProject(M)`: extracts the top-left block, `result(r, c) = M(r, c)`.
The source's `static_assert(N >= 2)` is the typing constraint that the
input dimension `N + 1` here is at least 2. -/
def hproject [Zero α] (L : Layout) {N : Nat} (M : Matrix (N + 1) (N + 1) α) :
    Matrix N N α :=
  build L N N (fun r c => entry L M r c)

/-- The buffer `Inverse(M)` and `Determinant(M)` pass to the elimination
collaborator `GaussianElimination<Real>()`: the pointer `&M[0]`, i.e. the
physical storage sequence, read for `N*N` elements. -/
def eliminationInput {N : Nat} {α : Type} (M : Matrix N N α) : List α :=
  M.flat

/-- Modelled from the spec: the elimination collaborator (whose source,
GaussianElimination.h, is not under src/) "consumes a flattened row-major
buffer": element `r*C + c` of that buffer is `M(r, c)`. -/
def rowMajorFlatten [Zero α] (L : Layout) {R C : Nat} (M : Matrix R C α) : List α :=
  (List.range (R * C)).map (fun i => entry L M (i / C) (i % C))

/-! Index arithmetic of the storage table. -/

theorem tableIdx_lt (L : Layout) {R C r c : Nat} (hr : r < R) (hc : c < C) :
    tableIdx L R C r c < R * C := by
  cases L with
  | rowMajor =>
    show r * C + c < R * C
    calc r * C + c < r * C + C := Nat.add_lt_add_left hc _
    _ = (r + 1) * C := by ring
    _ ≤ R * C := Nat.mul_le_mul_right _ hr
  | colMajor =>
    show c * R + r < R * C
    calc c * R + r < c * R + R := Nat.add_lt_add_left hr _
    _ = (c + 1) * R := by ring
    _ ≤ C * R := Nat.mul_le_mul_right _ hc
    _ = R * C := Nat.mul_comm _ _

theorem physRow_tableIdx (L : Layout) {R C r c : Nat} (hr : r < R) (hc : c < C) :
    physRow L R C (tableIdx L R C r c) = r := by
  cases L with
  | rowMajor =>
    show (r * C + c) / C = r
    have hC : 0 < C := lt_of_le_of_lt (Nat.zero_le c) hc
    rw [Nat.mul_comm r C, Nat.mul_add_div hC, Nat.div_eq_of_lt hc, Nat.add_zero]
  | colMajor =>
    show (c * R + r) % R = r
    rw [Nat.mul_comm c R, Nat.mul_add_mod, Nat.mod_eq_of_lt hr]

theorem physCol_tableIdx (L : Layout) {R C r c : Nat} (hr : r < R) (hc : c < C) :
    physCol L R C (tableIdx L R C r c) = c := by
  cases L with
  | rowMajor =>
    show (r * C + c) % C = c
    rw [Nat.mul_comm r C, Nat.mul_add_mod, Nat.mod_eq_of_lt hc]
  | colMajor =>
    show (c * R + r) / R = c
    have hR : 0 < R := lt_of_le_of_lt (Nat.zero_le r) hr
    rw [Nat.mul_comm c R, Nat.mul_add_div hR, Nat.div_eq_of_lt hr, Nat.add_zero]

theorem tableIdx_phys (L : Layout) (R C i : Nat) :
    tableIdx L R C (physRow L R C i) (physCol L R C i) = i := by
  cases L with
  | rowMajor =>
    show i / C * C + i % C = i
    rw [Nat.mul_comm]
    exact Nat.div_add_mod i C
  | colMajor =>
    show i / R * R + i % R = i
    rw [Nat.mul_comm]
    exact Nat.div_add_mod i R

theorem physRow_lt (L : Layout) {R C i : Nat} (hi : i < R * C) :
    physRow L R C i < R := by
  have hR : 0 < R := by
    rcases Nat.eq_zero_or_pos R with h | h
    · subst h; simp only [Nat.zero_mul] at hi; exact absurd hi (Nat.not_lt_zero i)
    · exact h
  have hC : 0 < C := by
    rcases Nat.eq_zero_or_pos C with h | h
    · subst h; simp only [Nat.mul_zero] at hi; exact absurd hi (Nat.not_lt_zero i)
    · exact h
  cases L with
  | rowMajor =>
    show i / C < R
    exact (Nat.div_lt_iff_lt_mul hC).mpr hi
  | colMajor =>
    show i % R < R
    exact Nat.mod_lt _ hR

theorem physCol_lt (L : Layout) {R C i : Nat} (hi : i < R * C) :
    physCol L R C i < C := by
  have hR : 0 < R := by
    rcases Nat.eq_zero_or_pos R with h | h
    · subst h; simp only [Nat.zero_mul] at hi; exact absurd hi (Nat.not_lt_zero i)
    · exact h
  have hC : 0 < C := by
    rcases Nat.eq_zero_or_pos C with h | h
    · subst h; simp only [Nat.mul_zero] at hi; exact absurd hi (Nat.not_lt_zero i)
    · exact h
  cases L with
  | rowMajor =>
    show i % C < C
    exact Nat.mod_lt _ hC
  | colMajor =>
    show i / R < C
    rw [Nat.div_lt_iff_lt_mul hR, Nat.mul_comm]
    exact hi

theorem tableIdx_inj (L : Layout) {R C r c r' c' : Nat}
    (hr : r < R) (hc : c < C) (hr' : r' < R) (hc' : c' < C)
    (h : tableIdx L R C r c = tableIdx L R C r' c') : r = r' ∧ c = c' := by
  constructor
  · have h1 := congrArg (physRow L R C) h
    rwa [physRow_tableIdx L hr hc, physRow_tableIdx L hr' hc'] at h1
  · have h2 := congrArg (physCol L R C) h
    rwa [physCol_tableIdx L hr hc, physCol_tableIdx L hr' hc'] at h2

/-! Reading built storage back through the accessors. -/

theorem flat_build_getD (L : Layout) {R C : Nat} (f : Nat → Nat → α) (d : α) {i : Nat}
    (hi : i < R * C) :
    (build L R C f).flat.getD i d = f (physRow L R C i) (physCol L R C i) := by
  have hlen : i < (build L R C f).flat.length := by rw [(build L R C f).hlen]; exact hi
  rw [List.getD_eq_getElem _ d hlen]
  simp [build]

theorem entry_build [Zero α] (L : Layout) {R C : Nat} (f : Nat → Nat → α) {r c : Nat}
    (hr : r < R) (hc : c < C) :
    entry L (build L R C f) r c = f r c := by
  unfold entry
  rw [flat_build_getD L f 0 (tableIdx_lt L hr hc), physRow_tableIdx L hr hc,
    physCol_tableIdx L hr hc]

theorem flat_getD_eq_entry [Zero α] (L : Layout) {R C : Nat} (M : Matrix R C α) (i : Nat) :
    M.flat.getD i 0 = entry L M (physRow L R C i) (physCol L R C i) := by
  unfold entry
  rw [tableIdx_phys]

theorem build_entry [Zero α] (L : Layout) {R C : Nat} (M : Matrix R C α) :
    build L R C (fun r c => entry L M r c) = M := by
  apply Matrix.ext
  apply List.ext_getElem (by rw [(build L R C fun r c => entry L M r c).hlen, M.hlen])
  intro i h1 h2
  have hi : i < R * C := by rw [← M.hlen]; exact h2
  rw [← List.getD_eq_getElem _ (0 : α) h1, ← List.getD_eq_getElem _ (0 : α) h2,
    flat_build_getD L _ 0 hi, flat_getD_eq_entry L M i]

theorem build_congr (L : Layout) {R C : Nat} {f g : Nat → Nat → α}
    (h : ∀ r c, r < R → c < C → f r c = g r c) :
    build L R C f = build L R C g := by
  apply Matrix.ext
  unfold build
  refine List.map_congr_left ?_
  intro i hi
  rw [List.mem_range] at hi
  exact h _ _ (physRow_lt L hi) (physCol_lt L hi)

theorem matrix_ext_entry [Zero α] (L : Layout) {R C : Nat} {M N : Matrix R C α}
    (h : ∀ r c, r < R → c < C → entry L M r c = entry L N r c) : M = N :=
  calc M = build L R C (fun r c => entry L M r c) := (build_entry L M).symm
  _ = build L R C (fun r c => entry L N r c) := build_congr L h
  _ = N := build_entry L N

/-! Accumulation loops. -/

theorem foldl_add_zero [AddMonoid α] (t : Nat → α) :
    ∀ (n : Nat) (a : α), (∀ i, i < n → t i = 0) →
      (List.range n).foldl (fun acc i => acc + t i) a = a := by
  intro n
  induction n with
  | zero => intro a _; simp
  | succ n ih =>
    intro a h
    rw [List.range_succ, List.foldl_append, List.foldl_cons, List.foldl_nil,
      h n (Nat.lt_succ_self n), add_zero]
    exact ih a (fun i hi => h i (Nat.lt_trans hi (Nat.lt_succ_self n)))

theorem foldl_add_single [AddMonoid α] (t : Nat → α) :
    ∀ (n : Nat), ∀ {r : Nat}, r < n → (∀ i, i < n → i ≠ r → t i = 0) → ∀ (a : α),
      (List.range n).foldl (fun acc i => acc + t i) a = a + t r := by
  intro n
  induction n with
  | zero => intro r hr; exact absurd hr (Nat.not_lt_zero r)
  | succ n ih =>
    intro r hr h a
    rw [List.range_succ, List.foldl_append, List.foldl_cons, List.foldl_nil]
    rcases Nat.lt_succ_iff_lt_or_eq.mp hr with h' | h'
    · rw [ih h' (fun i hi hir => h i (Nat.lt_trans hi (Nat.lt_succ_self n)) hir) a,
        h n (Nat.lt_succ_self n) (by omega), add_zero]
    · rw [foldl_add_zero t n a (fun i hi => h i (Nat.lt_trans hi (Nat.lt_succ_self n)) (by omega)),
        h']

/-! Entry characterizations of the constructors and operations. -/

theorem entry_makeZero [Zero α] (L : Layout) {R C r c : Nat} (hr : r < R) (hc : c < C) :
    entry L (makeZero R C : Matrix R C α) r c = 0 := by
  unfold entry makeZero
  have hidx : tableIdx L R C r c < (List.replicate (R * C) (0 : α)).length := by
    rw [List.length_replicate]
    exact tableIdx_lt L hr hc
  rw [List.getD_eq_getElem _ _ hidx, List.getElem_replicate]

theorem entry_fromValues [Zero α] (L : Layout) {R C : Nat} (vals : List α) {r c : Nat}
    (hr : r < R) (hc : c < C) :
    entry L (fromValues L R C vals) r c = vals.getD (r * C + c) 0 := by
  unfold fromValues
  exact entry_build L _ hr hc

theorem entry_ofInitList [Zero α] (L : Layout) {R C : Nat} (vals : List α) {r c : Nat}
    (hr : r < R) (hc : c < C) :
    entry L (ofInitList L R C vals) r c
      = if r * C + c < vals.length then vals.getD (r * C + c) 0 else 0 := by
  unfold ofInitList
  exact entry_build L _ hr hc

theorem entry_makeIdentity [Zero α] [One α] (L : Layout) {R C r c : Nat}
    (hr : r < R) (hc : c < C) :
    entry L (makeIdentity L R C : Matrix R C α) r c
      = if r = c ∧ r < min R C then 1 else 0 := by
  unfold makeIdentity
  exact entry_build L _ hr hc

theorem entry_transpose [Zero α] (L : Layout) {R C : Nat} (M : Matrix R C α) {r c : Nat}
    (hr : r < R) (hc : c < C) :
    entry L (transpose L M) c r = entry L M r c := by
  unfold transpose
  exact entry_build L _ hc hr

theorem entry_multiplyAB [LinearOrderedField α] (L : Layout) {R K C : Nat}
    (A : Matrix R K α) (B : Matrix K C α) {r c : Nat} (hr : r < R) (hc : c < C) :
    entry L (multiplyAB L A B) r c
      = (List.range K).foldl (fun acc i => acc + entry L A r i * entry L B i c) 0 := by
  unfold multiplyAB
  exact entry_build L _ hr hc

theorem rowMajorFlatten_length [Zero α] (L : Layout) {R C : Nat} (M : Matrix R C α) :
    (rowMajorFlatten L M).length = R * C := by
  unfold rowMajorFlatten
  rw [List.length_map, List.length_range]

theorem rowMajorFlatten_getD [Zero α] (L : Layout) {R C : Nat} (M : Matrix R C α)
    {i : Nat} (hi : i < R * C) :
    (rowMajorFlatten L M).getD i 0 = entry L M (i / C) (i % C) := by
  have hlen : i < (rowMajorFlatten L M).length := by
    rw [rowMajorFlatten_length L M]; exact hi
  unfold rowMajorFlatten at hlen ⊢
  rw [List.getD_eq_getElem _ _ hlen]
  simp

/-! The claims. -/

/-- C1 fails as stated: under the column-major layout policy, the buffer
`&M[0]` that Inverse and Determinant hand to the elimination collaborator is
the physical (column-major) flattening, not the row-major flattening.  For
the 2×2 matrix [[1,2],[3,4]] stored column-major, buffer element 0*2+1 is 3
while M(0,1) = 2. -/
theorem claim_C1_counterexample :
    (0 : Nat) < 2 ∧ (1 : Nat) < 2 ∧
    (eliminationInput (fromValues .colMajor 2 2 ([1, 2, 3, 4] : List ℚ))).getD (0 * 2 + 1) 0
      ≠ entry .colMajor (fromValues .colMajor 2 2 ([1, 2, 3, 4] : List ℚ)) 0 1 := by
  decide

/-- C1 (amended): Inverse and Determinant pass the physical flattening
`&M[0]` to the elimination collaborator.  Under the row-major layout policy
that buffer is exactly the row-major flattening of M, as the claim states;
under the column-major policy it is instead the row-major flattening of
Transpose(M) (equivalently, the column-major flattening of M). -/
theorem claim_C1 [Zero α] {N : Nat} (M : Matrix N N α) :
    eliminationInput M = rowMajorFlatten .rowMajor M ∧
    eliminationInput M = rowMajorFlatten .colMajor (transpose .colMajor M) := by
  constructor
  · show M.flat = rowMajorFlatten .rowMajor M
    apply List.ext_getElem (by rw [M.hlen, rowMajorFlatten_length])
    intro i h1 h2
    have hi : i < N * N := by rw [← M.hlen]; exact h1
    rw [← List.getD_eq_getElem _ (0 : α) h1, ← List.getD_eq_getElem _ (0 : α) h2,
      rowMajorFlatten_getD .rowMajor M hi]
    exact flat_getD_eq_entry .rowMajor M i
  · show M.flat = rowMajorFlatten .colMajor (transpose .colMajor M)
    apply List.ext_getElem (by rw [M.hlen, rowMajorFlatten_length])
    intro i h1 h2
    have hi : i < N * N := by rw [← M.hlen]; exact h1
    have hrow : i % N < N := physRow_lt .colMajor hi
    have hcol : i / N < N := physCol_lt .colMajor hi
    rw [← List.getD_eq_getElem _ (0 : α) h1, ← List.getD_eq_getElem _ (0 : α) h2,
      rowMajorFlatten_getD .colMajor _ hi,
      entry_transpose .colMajor M hrow hcol]
    exact flat_getD_eq_entry .colMajor M i

/-- C2 is right and the code is wrong: LInfinityNorm initializes its running
maximum with `M[0]` instead of `fabs(M[0])`, so on the 1×1 matrix [-2] it
returns -2, and on the 1×2 matrix [-5, 1] it returns 1, while the maximum
absolute element value is 2 (resp. 5). -/
theorem claim_C2 :
    lInfinityNorm (fromValues .rowMajor 1 1 [(-2 : ℚ)]) = -2 ∧
    |entry .rowMajor (fromValues .rowMajor 1 1 [(-2 : ℚ)]) 0 0| = 2 ∧
    lInfinityNorm (fromValues .rowMajor 1 2 [(-5 : ℚ), 1]) = 1 ∧
    |entry .rowMajor (fromValues .rowMajor 1 2 [(-5 : ℚ), 1]) 0 0| = 5 := by
  decide

/-- C3: the (r, c) accessor is layout-independent.  For the same logical
contents (a row-major value buffer of length R*C, as fed to the std::array
constructor), reading entry (r, c) under the row-major policy and under the
column-major policy gives the same value, for every valid (r, c). -/
theorem claim_C3 [Zero α] {R C : Nat} (vals : List α) (_hv : vals.length = R * C)
    {r c : Nat} (hr : r < R) (hc : c < C) :
    entry .rowMajor (fromValues .rowMajor R C vals) r c
      = entry .colMajor (fromValues .colMajor R C vals) r c := by
  rw [entry_fromValues .rowMajor vals hr hc, entry_fromValues .colMajor vals hr hc]

theorem claim_C3_witness :
    entry .rowMajor (fromValues .rowMajor 2 3 ([1, 2, 3, 4, 5, 6] : List ℚ)) 1 2
      = entry .colMajor (fromValues .colMajor 2 3 ([1, 2, 3, 4, 5, 6] : List ℚ)) 1 2 :=
  claim_C3 [1, 2, 3, 4, 5, 6] (by decide) (by decide) (by decide)

/-- C4: the initializer-list constructor copies the first min(k, R*C) input
values in row-major order (position (r, c) holds input value r*C + c), sets
every remaining position to zero, and ignores any input beyond R*C values
(the matrix built from `vals` equals the one built from the first R*C
values of `vals`). -/
theorem claim_C4 [Zero α] (L : Layout) {R C : Nat} (vals : List α) :
    (∀ r c, r < R → c < C →
      entry L (ofInitList L R C vals) r c
        = if r * C + c < vals.length then vals.getD (r * C + c) 0 else 0) ∧
    ofInitList L R C vals = ofInitList L R C (vals.take (R * C)) := by
  constructor
  · intro r c hr hc
    exact entry_ofInitList L vals hr hc
  · unfold ofInitList
    apply build_congr
    intro r c hr hc
    have hidx : r * C + c < R * C := tableIdx_lt .rowMajor hr hc
    by_cases h : r * C + c < vals.length
    · have hlt : r * C + c < (vals.take (R * C)).length := by
        rw [List.length_take]; omega
      rw [if_pos h, if_pos hlt, List.getD_eq_getElem _ _ h, List.getD_eq_getElem _ _ hlt,
        List.getElem_take]
    · have h2 : ¬ r * C + c < (vals.take (R * C)).length := by
        rw [List.length_take]; omega
      rw [if_neg h, if_neg h2]

/-- C4 witness: the 2×3 matrix built from [1, 2] has rows [1, 2, 0] and
[0, 0, 0], and input beyond the 6 grid slots is ignored. -/
theorem claim_C4_witness :
    entry .rowMajor (ofInitList .rowMajor 2 3 ([1, 2] : List ℚ)) 0 0 = 1 ∧
    entry .rowMajor (ofInitList .rowMajor 2 3 ([1, 2] : List ℚ)) 0 1 = 2 ∧
    entry .rowMajor (ofInitList .rowMajor 2 3 ([1, 2] : List ℚ)) 0 2 = 0 ∧
    entry .rowMajor (ofInitList .rowMajor 2 3 ([1, 2] : List ℚ)) 1 0 = 0 ∧
    entry .rowMajor (ofInitList .rowMajor 2 3 ([1, 2] : List ℚ)) 1 1 = 0 ∧
    entry .rowMajor (ofInitList .rowMajor 2 3 ([1, 2] : List ℚ)) 1 2 = 0 ∧
    ofInitList .colMajor 2 3 ([1, 2, 3, 4, 5, 6, 7, 8] : List ℚ)
      = ofInitList .colMajor 2 3 (([1, 2, 3, 4, 5, 6, 7, 8] : List ℚ).take (2 * 3)) := by
  refine ⟨?_, ?_, ?_, ?_, ?_, ?_, ?_⟩
  · rw [(claim_C4 .rowMajor ([1, 2] : List ℚ)).1 0 0 (by decide) (by decide)]; decide
  · rw [(claim_C4 .rowMajor ([1, 2] : List ℚ)).1 0 1 (by decide) (by decide)]; decide
  · rw [(claim_C4 .rowMajor ([1, 2] : List ℚ)).1 0 2 (by decide) (by decide)]; decide
  · rw [(claim_C4 .rowMajor ([1, 2] : List ℚ)).1 1 0 (by decide) (by decide)]; decide
  · rw [(claim_C4 .rowMajor ([1, 2] : List ℚ)).1 1 1 (by decide) (by decide)]; decide
  · rw [(claim_C4 .rowMajor ([1, 2] : List ℚ)).1 1 2 (by decide) (by decide)]; decide
  · exact (claim_C4 .colMajor ([1, 2, 3, 4, 5, 6, 7, 8] : List ℚ)).2

/-- C5: dividing by the exact zero scalar overwrites every element with 0
(the result is the all-zero matrix of M's shape, with no error), and
dividing by a nonzero scalar s multiplies every element by the reciprocal
1/s. -/
theorem claim_C5 [LinearOrderedField α] (L : Layout) {R C : Nat} (M : Matrix R C α)
    (s : α) :
    divScalar M 0 = (makeZero R C : Matrix R C α) ∧
    (s ≠ 0 → ∀ r c, r < R → c < C →
      entry L (divScalar M s) r c = entry L M r c * (1 / s)) := by
  constructor
  · apply Matrix.ext
    show (divScalar M 0).flat = (makeZero R C : Matrix R C α).flat
    unfold divScalar makeZero
    rw [if_neg (by simp)]
    show M.flat.map (fun _ => (0 : α)) = List.replicate (R * C) 0
    rw [← M.hlen]
    exact List.map_const M.flat 0
  · intro hs r c hr hc
    unfold entry divScalar
    rw [if_pos hs]
    have hidx : tableIdx L R C r c < M.flat.length := by
      rw [M.hlen]; exact tableIdx_lt L hr hc
    have hidx2 : tableIdx L R C r c < (M.flat.map fun x => x * (1 / s)).length := by
      rw [List.length_map]; exact hidx
    rw [List.getD_eq_getElem _ _ hidx2, List.getD_eq_getElem _ _ hidx, List.getElem_map]

theorem claim_C5_witness :
    divScalar (fromValues .rowMajor 2 2 ([1, 2, 3, 4] : List ℚ)) 0
      = (makeZero 2 2 : Matrix 2 2 ℚ) ∧
    entry .rowMajor (divScalar (fromValues .rowMajor 2 2 ([1, 2, 3, 4] : List ℚ)) 2) 1 0
      = entry .rowMajor (fromValues .rowMajor 2 2 ([1, 2, 3, 4] : List ℚ)) 1 0 * (1 / 2) :=
  ⟨(claim_C5 .rowMajor (fromValues .rowMajor 2 2 ([1, 2, 3, 4] : List ℚ)) 0).1,
   (claim_C5 .rowMajor (fromValues .rowMajor 2 2 ([1, 2, 3, 4] : List ℚ)) 2).2
     (by decide) 1 0 (by decide) (by decide)⟩

/-- C6: MakeUnit(r, c) (and Unit and the (r, c) constructor, which delegate
to it) produces the matrix whose entry at (r, c) is 1 and all other entries
are 0 when 0 ≤ r < R and 0 ≤ c < C, and produces the all-zero matrix, with
no error, when r or c is out of range. -/
theorem claim_C6 [Zero α] [One α] (L : Layout) (R C : Nat) (r c : Int) :
    unit L R C r c = (makeUnit L R C r c : Matrix R C α) ∧
    unitCtor L R C r c = (makeUnit L R C r c : Matrix R C α) ∧
    ((0 ≤ r ∧ r < R ∧ 0 ≤ c ∧ c < C) →
      ∀ r' c', r' < R → c' < C →
        entry L (makeUnit L R C r c : Matrix R C α) r' c'
          = if r' = r.toNat ∧ c' = c.toNat then 1 else 0) ∧
    (¬(0 ≤ r ∧ r < R ∧ 0 ≤ c ∧ c < C) →
      makeUnit L R C r c = (makeZero R C : Matrix R C α)) := by
  refine ⟨rfl, rfl, ?_, ?_⟩
  · intro h r' c' hr' hc'
    have hrt : r.toNat < R := by omega
    have hct : c.toNat < C := by omega
    unfold entry makeUnit
    rw [if_pos h]
    have hidx' : tableIdx L R C r' c'
        < ((List.replicate (R * C) (0 : α)).set (tableIdx L R C r.toNat c.toNat) 1).length := by
      rw [List.length_set, List.length_replicate]
      exact tableIdx_lt L hr' hc'
    rw [List.getD_eq_getElem _ _ hidx', List.getElem_set]
    by_cases heq : tableIdx L R C r.toNat c.toNat = tableIdx L R C r' c'
    · rcases tableIdx_inj L hrt hct hr' hc' heq with ⟨h1, h2⟩
      rw [if_pos heq, if_pos ⟨h1.symm, h2.symm⟩]
    · have hne : ¬(r' = r.toNat ∧ c' = c.toNat) := by
        intro hcon
        exact heq (by rw [hcon.1, hcon.2])
      rw [if_neg heq, if_neg hne, List.getElem_replicate]
  · intro h
    unfold makeUnit
    rw [if_neg h]

theorem claim_C6_witness :
    entry .rowMajor (makeUnit .rowMajor 2 3 0 1 : Matrix 2 3 ℚ) 0 1 = 1 ∧
    entry .rowMajor (makeUnit .rowMajor 2 3 0 1 : Matrix 2 3 ℚ) 1 1 = 0 ∧
    makeUnit .colMajor 2 3 (-1) 0 = (makeZero 2 3 : Matrix 2 3 ℚ) := by
  refine ⟨?_, ?_, ?_⟩
  · rw [(claim_C6 (α := ℚ) .rowMajor 2 3 0 1).2.2.1 (by decide) 0 1 (by decide) (by decide)]
    decide
  · rw [(claim_C6 (α := ℚ) .rowMajor 2 3 0 1).2.2.1 (by decide) 1 1 (by decide) (by decide)]
    decide
  · exact (claim_C6 (α := ℚ) .colMajor 2 3 (-1) 0).2.2.2 (by decide)

/-- C7: the product variants agree: MultiplyAB(A, B) equals
MultiplyABT(A, Transpose(B)) and MultiplyATB(Transpose(A), B), as matrices
(the physical storage sequences coincide; each variant accumulates the same
products in the same innermost order). -/
theorem claim_C7 [LinearOrderedField α] (L : Layout) {R K C : Nat}
    (A : Matrix R K α) (B : Matrix K C α) :
    multiplyAB L A B = multiplyABT L A (transpose L B) ∧
    multiplyAB L A B = multiplyATB L (transpose L A) B := by
  constructor
  · unfold multiplyAB multiplyABT
    apply build_congr
    intro r c hr hc
    apply List.foldl_ext
    intro acc i hi
    rw [List.mem_range] at hi
    rw [entry_transpose L B hi hc]
  · unfold multiplyAB multiplyATB
    apply build_congr
    intro r c hr hc
    apply List.foldl_ext
    intro acc i hi
    rw [List.mem_range] at hi
    rw [entry_transpose L A hr hi]

/-- C8: Transpose(M) is the C×R matrix with Transpose(M)(c, r) = M(r, c)
for all valid (r, c), and Transpose(Transpose(M)) = M. -/
theorem claim_C8 [Zero α] (L : Layout) {R C : Nat} (M : Matrix R C α) :
    (∀ r c, r < R → c < C → entry L (transpose L M) c r = entry L M r c) ∧
    transpose L (transpose L M) = M := by
  constructor
  · intro r c hr hc
    exact entry_transpose L M hr hc
  · calc transpose L (transpose L M)
        = build L R C (fun r c => entry L (transpose L M) c r) := rfl
    _ = build L R C (fun r c => entry L M r c) :=
        build_congr L (fun r c hr hc => entry_transpose L M hr hc)
    _ = M := build_entry L M

theorem claim_C8_witness :
    entry .colMajor (transpose .colMajor (fromValues .colMajor 2 3 ([1, 2, 3, 4, 5, 6] : List ℚ))) 2 1
      = entry .colMajor (fromValues .colMajor 2 3 ([1, 2, 3, 4, 5, 6] : List ℚ)) 1 2 ∧
    transpose .colMajor (transpose .colMajor (fromValues .colMajor 2 3 ([1, 2, 3, 4, 5, 6] : List ℚ)))
      = fromValues .colMajor 2 3 ([1, 2, 3, 4, 5, 6] : List ℚ) :=
  ⟨(claim_C8 .colMajor (fromValues .colMajor 2 3 ([1, 2, 3, 4, 5, 6] : List ℚ))).1
      1 2 (by decide) (by decide),
   (claim_C8 .colMajor (fromValues .colMajor 2 3 ([1, 2, 3, 4, 5, 6] : List ℚ))).2⟩

/-- C9: for N ≥ 1, HProject(HLift(M)) = M; HLift(M) is the (N+1)×(N+1)
matrix whose top-left N×N block is M, whose other entries are 0 except the
bottom-right entry (N, N), which is 1. -/
theorem claim_C9 [Zero α] [One α] (L : Layout) {N : Nat} (_hN : 1 ≤ N) (M : Matrix N N α) :
    hproject L (hlift L M) = M ∧
    (∀ r c, r < N + 1 → c < N + 1 →
      entry L (hlift L M) r c
        = if r < N ∧ c < N then entry L M r c
          else if r = N ∧ c = N then 1 else 0) := by
  constructor
  · calc hproject L (hlift L M)
        = build L N N (fun r c => entry L (hlift L M) r c) := rfl
    _ = build L N N (fun r c => entry L M r c) := by
        apply build_congr
        intro r c hr hc
        unfold hlift
        rw [entry_build L _ (by omega) (by omega), if_pos ⟨hr, hc⟩]
    _ = M := build_entry L M
  · intro r c hr hc
    unfold hlift
    rw [entry_build L _ hr hc]
    by_cases hb : r < N ∧ c < N
    · rw [if_pos hb, if_pos hb]
    · rw [if_neg hb, if_neg hb, entry_makeIdentity L hr hc, min_self]
      by_cases h1 : r = N ∧ c = N
      · rw [if_pos ⟨by omega, by omega⟩, if_pos h1]
      · have hcon : ¬(r = c ∧ r < N + 1) := by omega
        rw [if_neg hcon, if_neg h1]

theorem claim_C9_witness :
    hproject .rowMajor (hlift .rowMajor (fromValues .rowMajor 2 2 ([1, 2, 3, 4] : List ℚ)))
      = fromValues .rowMajor 2 2 ([1, 2, 3, 4] : List ℚ) ∧
    entry .rowMajor (hlift .rowMajor (fromValues .rowMajor 2 2 ([1, 2, 3, 4] : List ℚ))) 2 2 = 1 :=
  ⟨(claim_C9 .rowMajor (by decide) (fromValues .rowMajor 2 2 ([1, 2, 3, 4] : List ℚ))).1,
   by
    rw [(claim_C9 .rowMajor (by decide)
      (fromValues .rowMajor 2 2 ([1, 2, 3, 4] : List ℚ))).2 2 2 (by decide) (by decide)]
    decide⟩

/-- C10 (implicit): the square identity matrix from MakeIdentity/Identity
is a two-sided multiplicative identity for MultiplyAB: Identity * A = A and
B * Identity = B for compatible A, B. -/
theorem claim_C10 [LinearOrderedField α] (L : Layout) {N R C : Nat}
    (A : Matrix N C α) (B : Matrix R N α) :
    identity L N N = (makeIdentity L N N : Matrix N N α) ∧
    multiplyAB L (makeIdentity L N N) A = A ∧
    multiplyAB L B (makeIdentity L N N) = B := by
  refine ⟨rfl, ?_, ?_⟩
  · calc multiplyAB L (makeIdentity L N N) A
        = build L N C (fun r c => (List.range N).foldl
            (fun acc i => acc + entry L (makeIdentity L N N : Matrix N N α) r i
              * entry L A i c) 0) := rfl
    _ = build L N C (fun r c => entry L A r c) := by
        apply build_congr
        intro r c hr hc
        have h0 : ∀ i, i < N → i ≠ r →
            entry L (makeIdentity L N N : Matrix N N α) r i * entry L A i c = 0 := by
          intro i hi hir
          rw [entry_makeIdentity L hr hi, if_neg (by omega), zero_mul]
        rw [foldl_add_single _ N hr h0 0, zero_add, entry_makeIdentity L hr hr,
          if_pos ⟨rfl, by rw [min_self]; exact hr⟩, one_mul]
    _ = A := build_entry L A
  · calc multiplyAB L B (makeIdentity L N N)
        = build L R N (fun r c => (List.range N).foldl
            (fun acc i => acc + entry L B r i
              * entry L (makeIdentity L N N : Matrix N N α) i c) 0) := rfl
    _ = build L R N (fun r c => entry L B r c) := by
        apply build_congr
        intro r c hr hc
        have h0 : ∀ i, i < N → i ≠ c →
            entry L B r i * entry L (makeIdentity L N N : Matrix N N α) i c = 0 := by
          intro i hi hic
          rw [entry_makeIdentity L hi hc, if_neg (by omega), mul_zero]
        rw [foldl_add_single _ N hc h0 0, zero_add, entry_makeIdentity L hc hc,
          if_pos ⟨rfl, by rw [min_self]; exact hc⟩, mul_one]
    _ = B := build_entry L B

end gte
